import Mathlib

set_option maxHeartbeats 1000000

/- Verification development for the process-lifecycle and scheduling core in
   kernel/proc.c.  The process table is modelled as a list of process control
   blocks; C pointers into the table (parent links, sleep channels, the init
   process) become slot indices; machine int fields that can be negative
   (running_time, sleeping_time, Static_priority, pid, xstate) become Int,
   tick-valued fields (which are unsigned in the source) become Nat.
   Virtual-memory, file and trap collaborators are out of scope of the core
   and are modelled only through their observable effect on the slot fields
   (trapframe and pagetable as held-or-not flags, copyout as a success bit). -/

namespace OSched

/-- Process states, matching enum procstate of the source. -/
inductive ProcState where
  | UNUSED
  | USED
  | SLEEPING
  | RUNNABLE
  | RUNNING
  | ZOMBIE
deriving DecidableEq, Repr

/-- One slot of the process table (struct proc).  The policy-specific field
    groups of the FCFS, PBS and MLFQ builds are all present; each build only
    touches the group of its own policy. -/
structure Proc where
  state : ProcState
  pid : Int
  parent : Option Nat
  killed : Bool
  xstate : Int
  chan : Option Nat
  sz : Nat
  trapframe : Bool
  pagetable : Bool
  name : String
  ctime : Nat
  rtime : Nat
  etime : Nat
  Static_priority : Int
  Times_scheduled : Nat
  start_time : Nat
  running_time : Int
  sleeping_time : Int
  priority_number : Nat
  time_added : Nat
  no_of_ticks : Nat
  No_times : Nat
deriving DecidableEq, Repr

/-- A zeroed slot, used as the getD default when reading the table. -/
def defaultProc : Proc :=
  { state := .UNUSED, pid := 0, parent := none, killed := false, xstate := 0,
    chan := none, sz := 0, trapframe := false, pagetable := false, name := "",
    ctime := 0, rtime := 0, etime := 0,
    Static_priority := 0, Times_scheduled := 0, start_time := 0,
    running_time := 0, sleeping_time := 0,
    priority_number := 0, time_added := 0, no_of_ticks := 0, No_times := 0 }

instance : Inhabited Proc := ⟨defaultProc⟩

/-- Read slot j of the table. -/
def pget (t : List Proc) (j : Nat) : Proc := t.getD j defaultProc

/-- freeproc: release trapframe and pagetable, clear the listed fields and
    mark the slot UNUSED.  Timing and policy fields are not touched, exactly
    as in the source. -/
def freeproc (p : Proc) : Proc :=
  { p with trapframe := false, pagetable := false, sz := 0, pid := 0,
           parent := none, name := "", chan := none, killed := false,
           xstate := 0, state := .UNUSED }

/-- Result of the table scan inside wait()/waitx(): either the first child in
    ZOMBIE state together with its index, or the final havekids flag. -/
inductive ScanRes where
  | found (j : Nat) (np : Proc)
  | done (havekids : Bool)
deriving DecidableEq, Repr

/-- The for loop of wait()/waitx() over the table: a slot whose parent is the
    caller sets havekids; the first such slot in ZOMBIE state ends the scan. -/
def waitScan (caller : Nat) : List Proc → Nat → Bool → ScanRes
  | [], _, havekids => .done havekids
  | np :: rest, j, havekids =>
    if np.parent = some caller then
      if np.state = .ZOMBIE then .found j np
      else waitScan caller rest (j + 1) true
    else waitScan caller rest (j + 1) havekids

/-- Outcome of one round of wait: reap a zombie child, return -1 because the
    xstate copyout failed, return -1 because of no children or a set kill
    flag, or block on sleep(p, wait_lock) and rescan later.  Every outcome
    carries the table it leaves behind. -/
inductive WaitOutcome where
  | reap (pid : Int) (t : List Proc)
  | fail (t : List Proc)
  | nochildren (t : List Proc)
  | sleepRetry (t : List Proc)
deriving DecidableEq, Repr

/-- The killed flag of the calling slot, read by wait()/waitx(). -/
def killedOf (t : List Proc) (caller : Nat) : Bool := (pget t caller).killed

/-- The C return value of a wait round: pid on reap, -1 on both failure
    paths, none while the caller blocks. -/
def waitRet : WaitOutcome → Option Int
  | .reap pid _ => some pid
  | .fail _ => some (-1)
  | .nochildren _ => some (-1)
  | .sleepRetry _ => some 0 |>.bind fun _ => none

/-- One round of wait(addr).  copyFails abstracts the collaborator test
    addr != 0 && copyout(p->pagetable, addr, &np->xstate, ...) < 0; on that
    failure the child slot is left untouched.  On a successful copy the child
    is freed via freeproc and its pid returned. -/
def wait (caller : Nat) (copyFails : Bool) (t : List Proc) : WaitOutcome :=
  match waitScan caller t 0 false with
  | .found j np =>
    if copyFails then .fail t
    else .reap np.pid (t.set j (freeproc np))
  | .done havekids =>
    if havekids = false ∨ killedOf t caller = true then .nochildren t
    else .sleepRetry t

/-- Outcome of one round of waitx: as wait, but the zombie branch also writes
    *rtime = np->rtime and *wtime = np->etime - np->ctime - np->rtime before
    the copyout test, so both values are reported even on the fail path. -/
inductive WaitxOutcome where
  | reapx (pid : Int) (rt wt : Nat) (t : List Proc)
  | failx (rt wt : Nat) (t : List Proc)
  | nochildrenx (t : List Proc)
  | sleepRetryx (t : List Proc)
deriving DecidableEq, Repr

/-- One round of waitx(addr, rtime, wtime). -/
def waitx (caller : Nat) (copyFails : Bool) (t : List Proc) : WaitxOutcome :=
  match waitScan caller t 0 false with
  | .found j np =>
    let rt := np.rtime
    let wt := np.etime - np.ctime - np.rtime
    if copyFails then .failx rt wt t
    else .reapx np.pid rt wt (t.set j (freeproc np))
  | .done havekids =>
    if havekids = false ∨ killedOf t caller = true then .nochildrenx t
    else .sleepRetryx t

/-- The four build-time scheduling policies. -/
inductive Policy where
  | DEFAULT
  | FCFS
  | PBS
  | MLFQ
deriving DecidableEq, Repr

/-- Effect of wakeup(chan) on one slot: a SLEEPING slot other than the
    caller whose channel matches becomes RUNNABLE, with the policy-specific
    bookkeeping of the source (PBS closes the sleeping interval, MLFQ resets
    the queue-enter tick and the per-level tick count). -/
def wakeSlot (pol : Policy) (skip : Nat) (chan : Option Nat) (now : Nat)
    (j : Nat) (p : Proc) : Proc :=
  if j ≠ skip ∧ p.state = .SLEEPING ∧ p.chan = chan then
    match pol with
    | .PBS => { p with state := .RUNNABLE,
                       sleeping_time := (now : Int) - p.sleeping_time }
    | .MLFQ => { p with state := .RUNNABLE, time_added := now, no_of_ticks := 0 }
    | _ => { p with state := .RUNNABLE }
  else p

/-- The wakeup scan over the table, carrying the index of each slot. -/
def wakeGo (pol : Policy) (skip : Nat) (chan : Option Nat) (now : Nat) :
    List Proc → Nat → List Proc
  | [], _ => []
  | p :: rest, j => wakeSlot pol skip chan now j p :: wakeGo pol skip chan now rest (j + 1)

/-- wakeup(chan), called by the process in slot skip. -/
def wakeupT (pol : Policy) (skip : Nat) (chan : Option Nat) (now : Nat)
    (t : List Proc) : List Proc :=
  wakeGo pol skip chan now t 0

/-- The reparent loop of exit: each slot whose parent is the exiting slot is
    handed to the init slot and wakeup(initproc) is issued; the second result
    collects the channel of every wakeup call made. -/
def repGo (pol : Policy) (pIdx initIdx : Nat) (now : Nat) :
    List Nat → List Proc → List Proc × List (Option Nat)
  | [], t => (t, [])
  | j :: js, t =>
    if (pget t j).parent = some pIdx then
      let t1 := wakeupT pol pIdx (some initIdx) now
                  (t.set j { pget t j with parent := some initIdx })
      let r := repGo pol pIdx initIdx now js t1
      (r.1, some initIdx :: r.2)
    else repGo pol pIdx initIdx now js t

/-- reparent(p), walking the whole table under wait_lock. -/
def reparentT (pol : Policy) (pIdx initIdx : Nat) (now : Nat) (t : List Proc) :
    List Proc × List (Option Nat) :=
  repGo pol pIdx initIdx now (List.range t.length) t

/-- The table update performed by exit(status) under wait_lock: reparent all
    children to init (waking init once per child), wake the (post-reparent)
    parent of the exiting slot, then record xstate, ZOMBIE and etime in the
    exiting slot.  File and directory teardown happens before wait_lock in
    the source and touches only collaborator state, so it has no footprint
    here.  The source then jumps into the scheduler and never returns; the
    pair returned is the final table and the log of wakeup channels. -/
def exitUpd (pol : Policy) (pIdx initIdx : Nat) (status : Int) (now : Nat)
    (t : List Proc) : List Proc × List (Option Nat) :=
  let r := reparentT pol pIdx initIdx now t
  let pchan := (pget r.1 pIdx).parent
  let t2 := wakeupT pol pIdx pchan now r.1
  let t3 := t2.set pIdx { pget t2 pIdx with xstate := status, state := .ZOMBIE,
                                            etime := now }
  (t3, r.2 ++ [pchan])

/-- PSBPriority of the PBS build: niceness is 5 for a fresh slot (both
    interval markers still -1), otherwise sleeping_time*10 divided by
    running_time + sleeping_time with C int division (truncation toward
    zero); the value Static_priority - niceness + 5 is clamped to [0,100]. -/
def PSBPriority (p : Proc) : Int :=
  let niceness : Int :=
    if p.sleeping_time = -1 ∧ p.running_time = -1 then 5
    else Int.tdiv (p.sleeping_time * 10) (p.running_time + p.sleeping_time)
  let Value : Int := p.Static_priority - niceness + 5
  if Value > 100 then 100
  else if Value < 0 then 0
  else Value

/-- Division with an explicit error branch for a zero divisor, used to make
    the undefined C division observable. -/
def divGuard (a b : Int) : Option Int :=
  if b = 0 then none else some (Int.tdiv a b)

/-- PSBPriority with the division guarded: none exactly when the source
    would divide by zero. -/
def PSBPriorityG (p : Proc) : Option Int :=
  let nicenessO : Option Int :=
    if p.sleeping_time = -1 ∧ p.running_time = -1 then some 5
    else divGuard (p.sleeping_time * 10) (p.running_time + p.sleeping_time)
  nicenessO.map fun niceness =>
    let Value : Int := p.Static_priority - niceness + 5
    if Value > 100 then 100
    else if Value < 0 then 0
    else Value

/-- Wording of the spec: clamp(x, lo, hi). -/
def clampSpec (lo hi x : Int) : Int := max lo (min hi x)

/-- Wording of the spec: niceness is 5 for a fresh process, otherwise
    10 times sleepingTime over sleepingTime + runningTime, truncated. -/
def nicenessSpec (p : Proc) : Int :=
  if p.sleeping_time = -1 ∧ p.running_time = -1 then 5
  else Int.tdiv (10 * p.sleeping_time) (p.sleeping_time + p.running_time)

/-- Wording of the spec: dynamicPriority = clamp(static - niceness + 5, 0, 100). -/
def dynamicPrioritySpec (p : Proc) : Int :=
  clampSpec 0 100 (p.Static_priority - nicenessSpec p + 5)

/-- Result of set_priority_i: 1 for an out-of-range priority, 2 when no
    RUNNABLE or SLEEPING slot carries the pid, otherwise the old static
    priority together with the updated table and whether the caller then
    calls yield(). -/
inductive SetPrioRes where
  | invalid
  | notFound
  | ok (old : Int) (yielded : Bool) (t : List Proc)
deriving DecidableEq, Repr

/-- The first-match scan of set_priority_i: the slot must be RUNNABLE or
    SLEEPING and carry the requested pid. -/
def spFind (pid : Int) : List Proc → Nat → Option (Nat × Proc)
  | [], _ => none
  | p :: rest, j =>
    if (p.state = .RUNNABLE ∨ p.state = .SLEEPING) ∧ p.pid = pid then some (j, p)
    else spFind pid rest (j + 1)

/-- set_priority_i of the PBS build: range check, first-match scan, then the
    static priority is replaced, both interval markers go back to -1, and the
    caller yields exactly when the new value is numerically greater than the
    old one. -/
def set_priority_i (priority : Int) (pid : Int) (t : List Proc) : SetPrioRes :=
  if priority < 0 ∨ priority > 100 then .invalid
  else
    match spFind pid t 0 with
    | none => .notFound
    | some (j, pp) =>
      .ok pp.Static_priority (decide (priority > pp.Static_priority))
        (t.set j { pp with Static_priority := priority,
                           running_time := -1, sleeping_time := -1 })

/-- The first-match scan of kill: any slot whose pid field matches,
    regardless of its state. -/
def killFind (pid : Int) : List Proc → Nat → Option (Nat × Proc)
  | [], _ => none
  | p :: rest, j =>
    if p.pid = pid then some (j, p)
    else killFind pid rest (j + 1)

/-- kill(pid): on the first slot whose pid field matches, set the kill flag
    and force a SLEEPING slot to RUNNABLE, returning 0; return -1 when no
    slot matches. -/
def kill (pid : Int) (t : List Proc) : Int × List Proc :=
  match killFind pid t 0 with
  | some (j, p) =>
    (0, t.set j { p with killed := true,
                         state := if p.state = .SLEEPING then .RUNNABLE else p.state })
  | none => (-1, t)

/-- The FCFS selection loop: First_start starts as the int sentinel -1, the
    first RUNNABLE slot initializes it, and a later RUNNABLE slot with a
    strictly smaller start_time replaces the candidate. -/
def fcfsGo : List Proc → Nat → Int → Option Nat → Option Nat
  | [], _, _, sel => sel
  | p :: rest, j, first, sel =>
    if p.state = .RUNNABLE then
      if first = -1 then fcfsGo rest (j + 1) (p.start_time : Int) (some j)
      else if (p.start_time : Int) < first then
        fcfsGo rest (j + 1) (p.start_time : Int) (some j)
      else fcfsGo rest (j + 1) first sel
    else fcfsGo rest (j + 1) first sel

/-- One selection pass of the FCFS scheduler: the slot it would dispatch,
    none when nothing is RUNNABLE (the outer loop then spins). -/
def FCFSselect (t : List Proc) : Option Nat := fcfsGo t 0 (-1) none

/-- First index attaining the minimal key among the slots satisfying sel,
    written as a straightforward recursion to serve as the specification side
    of the scheduler loops; ties go to the earlier slot. -/
def bestScan (sel : Proc → Prop) [DecidablePred sel] (key : Proc → Nat) :
    List Proc → Nat → Option (Nat × Nat)
  | [], _ => none
  | p :: rest, j =>
    let r := bestScan sel key rest (j + 1)
    if sel p then
      match r with
      | none => some (j, key p)
      | some (k, m) => if key p ≤ m then some (j, key p) else some (k, m)
    else r

/-- Wording of the spec for FCFS: the RUNNABLE slot with the smallest
    enqueue tick, ties broken by table order. -/
def fcfsSpec (t : List Proc) : Option Nat :=
  (bestScan (fun p => p.state = .RUNNABLE) (fun p => p.start_time) t 0).map Prod.fst

/-- The Max_wait table of the MLFQ build. -/
def MaxWait : List Nat := [0, 10, 30, 100, 150]

/-- UpgradePolicy: every RUNNABLE slot below the top level whose wait since
    time_added exceeds the per-level threshold moves one level up and has its
    enter tick reset. -/
def UpgradePolicy (now : Nat) (t : List Proc) : List Proc :=
  t.map fun p =>
    if p.state = .RUNNABLE ∧ p.priority_number ≠ 0 ∧
       now - p.time_added > MaxWait.getD p.priority_number 0 then
      { p with time_added := now, priority_number := p.priority_number - 1 }
    else p

/-- The per-level scan of the MLFQ scheduler, with minimum_time starting at
    the sentinel 0: a RUNNABLE slot of the level re-initializes the pair
    whenever minimum_time is 0, otherwise a strictly smaller time_added
    replaces the candidate. -/
def levelGo (i : Nat) : List Proc → Nat → Nat → Option Nat → Nat × Option Nat
  | [], _, minimum, sel => (minimum, sel)
  | p :: rest, j, minimum, sel =>
    if p.state = .RUNNABLE ∧ p.priority_number = i then
      if minimum = 0 then levelGo i rest (j + 1) p.time_added (some j)
      else if p.time_added < minimum then levelGo i rest (j + 1) p.time_added (some j)
      else levelGo i rest (j + 1) minimum sel
    else levelGo i rest (j + 1) minimum sel

/-- The candidate of one level: taken only when the final minimum_time is
    not the sentinel 0. -/
def levelResult (i : Nat) (t : List Proc) : Option Nat :=
  match levelGo i t 0 0 none with
  | (minimum, sel) => if minimum = 0 then none else sel

/-- The goto chain over levels 0, 1, 2, 3 of the MLFQ scheduler. -/
def levelScan (t : List Proc) : Option Nat :=
  match levelResult 0 t with
  | some j => some j
  | none =>
    match levelResult 1 t with
    | some j => some j
    | none =>
      match levelResult 2 t with
      | some j => some j
      | none => levelResult 3 t

/-- The round-robin tail of the MLFQ scheduler: probe slots from the cursor,
    wrapping modulo the table size, and stop at the first RUNNABLE one; the
    cursor always advances past each probed slot.  Fuel bounds the probe at
    one full lap; the source loops forever when nothing is RUNNABLE. -/
def rrGo (t : List Proc) (n : Nat) : Nat → Nat → Option (Nat × Nat)
  | _, 0 => none
  | cur, fuel + 1 =>
    if (pget t cur).state = .RUNNABLE then some (cur, (cur + 1) % n)
    else rrGo t n ((cur + 1) % n) fuel

/-- One lap of the round-robin tail starting at cursor rr. -/
def rrScan (rr : Nat) (t : List Proc) : Option (Nat × Nat) :=
  rrGo t t.length rr t.length

/-- The selection step of one MLFQ scheduler iteration: the level chain
    first, the round-robin tail only when every level came back empty.  The
    result is the chosen slot and the cursor value after the choice. -/
def mlfqChoose (rr : Nat) (t : List Proc) : Option (Nat × Nat) :=
  match levelScan t with
  | some j => some (j, rr)
  | none => rrScan rr t

/-- The dispatch bookkeeping of the MLFQ scheduler: the chosen slot becomes
    RUNNING, its queue-enter tick is cleared and its dispatch count grows. -/
def mlfqDispatch (j : Nat) (t : List Proc) : List Proc :=
  t.set j { pget t j with state := .RUNNING, time_added := 0,
                          No_times := (pget t j).No_times + 1 }

/-- One full MLFQ scheduler iteration: aging, selection, dispatch.  The
    result carries the chosen slot, the new cursor and the table handed to
    swtch; none marks the diverging round-robin spin of an idle table. -/
def MLFQiter (rr : Nat) (now : Nat) (t : List Proc) :
    Option (Nat × Nat × List Proc) :=
  let t1 := UpgradePolicy now t
  match mlfqChoose rr t1 with
  | none => none
  | some (j, rr2) => some (j, rr2, mlfqDispatch j t1)

/-- Events touching the PBS interval markers of one slot, each stamped with
    the current tick: the dispatch bookkeeping of the PBS scheduler, the
    sleep() bookkeeping, the wakeup() bookkeeping and a plain yield. -/
inductive PbsEvent where
  | dispatch (now : Nat)
  | sleepE (now : Nat)
  | wakeE (now : Nat)
  | yieldE
deriving DecidableEq, Repr

/-- The scheduling state of one slot of the PBS build, as far as the
    niceness computation is concerned. -/
structure PbsSt where
  st : ProcState
  rt : Int
  slt : Int
  lastTick : Nat
deriving DecidableEq, Repr

/-- The slot state right after allocproc under PBS: RUNNABLE with both
    interval markers at the default -1. -/
def pbsInit : PbsSt := { st := .RUNNABLE, rt := -1, slt := -1, lastTick := 0 }

/-- One event step on a PBS slot, mirroring the field updates of the source:
    dispatch stamps running_time with the tick and zeroes sleeping_time;
    sleep turns running_time into the elapsed run and stamps sleeping_time;
    wakeup turns sleeping_time into the elapsed sleep.  Ticks may not go
    backwards; several events inside one tick are ordinary. -/
def pbsStep (s : PbsSt) : PbsEvent → Option PbsSt
  | .dispatch now =>
    if s.st = .RUNNABLE ∧ s.lastTick ≤ now then
      some { st := .RUNNING, rt := (now : Int), slt := 0, lastTick := now }
    else none
  | .sleepE now =>
    if s.st = .RUNNING ∧ s.lastTick ≤ now then
      some { st := .SLEEPING, rt := (now : Int) - s.rt, slt := (now : Int),
             lastTick := now }
    else none
  | .wakeE now =>
    if s.st = .SLEEPING ∧ s.lastTick ≤ now then
      some { st := .RUNNABLE, rt := s.rt, slt := (now : Int) - s.slt,
             lastTick := now }
    else none
  | .yieldE =>
    if s.st = .RUNNING then some { s with st := .RUNNABLE } else none

/-- Run a sequence of events from a slot state. -/
def pbsRun : PbsSt → List PbsEvent → Option PbsSt
  | s, [] => some s
  | s, e :: es =>
    match pbsStep s e with
    | none => none
    | some s1 => pbsRun s1 es

/-- Read a PBS slot state back into a full slot with static priority 60 (the
    allocproc default), for feeding PSBPriority. -/
def pbsToProc (s : PbsSt) : Proc :=
  { defaultProc with state := s.st, Static_priority := 60,
                     running_time := s.rt, sleeping_time := s.slt }

/-- Configuration of the sleep/wakeup race: the program counter of the
    sleeper inside sleep(), the program counter of the waker inside
    wakeup(), the owner of the per-slot lock (0 free, 1 sleeper, 2 waker),
    whether the external lock is still held, the slot state and whether the
    channel field has been recorded. -/
structure SWConfig where
  spc : Nat
  wpc : Nat
  lockOwner : Nat
  lkHeld : Bool
  pstate : ProcState
  chanSet : Bool
deriving DecidableEq, Repr

/-- Start of the race window of the claim: the sleeper has already acquired
    its own slot lock inside sleep() and still holds the external lock; the
    wakeup call on the same channel is issued from now on. -/
def swInit : SWConfig :=
  { spc := 0, wpc := 0, lockOwner := 1, lkHeld := true,
    pstate := .RUNNING, chanSet := false }

/-- Atomic steps of the race.  Sleeper inside sleep(): release the external
    lock, record the channel and become SLEEPING, then hand control to the
    scheduler which releases the slot lock after swtch.  Waker inside
    wakeup(): acquire the slot lock (only when free), test-and-flip a
    matching sleeper to RUNNABLE, release the slot lock.  Writes to the
    slot state happen only while holding the slot lock, as in the source. -/
def swNext (c : SWConfig) : List SWConfig :=
  (if c.spc = 0 then [{ c with lkHeld := false, spc := 1 }] else []) ++
  (if c.spc = 1 then [{ c with chanSet := true, pstate := .SLEEPING, spc := 2 }] else []) ++
  (if c.spc = 2 then [{ c with lockOwner := 0, spc := 3 }] else []) ++
  (if c.wpc = 0 ∧ c.lockOwner = 0 then [{ c with lockOwner := 2, wpc := 1 }] else []) ++
  (if c.wpc = 1 then
    [if c.pstate = .SLEEPING ∧ c.chanSet then { c with pstate := .RUNNABLE, wpc := 2 }
     else { c with wpc := 2 }]
   else []) ++
  (if c.wpc = 2 then [{ c with lockOwner := 0, wpc := 3 }] else [])

/-- Reachability of race configurations from swInit. -/
inductive SWReach : SWConfig → Prop where
  | refl : SWReach swInit
  | tail : ∀ {c d : SWConfig}, SWReach c → d ∈ swNext c → SWReach d

/-- The race is done when both calls have run to completion. -/
def swDone (c : SWConfig) : Prop := c.spc = 3 ∧ c.wpc = 3

instance (c : SWConfig) : Decidable (swDone c) := by
  unfold swDone; infer_instance

/-- The full reachable set of the race, listed along its only schedule up to
    the commuting of enabled steps: the waker is shut out until the sleeper
    is completely asleep and its lock is free. -/
def swReachList : List SWConfig :=
  [ { spc := 0, wpc := 0, lockOwner := 1, lkHeld := true,  pstate := .RUNNING,  chanSet := false },
    { spc := 1, wpc := 0, lockOwner := 1, lkHeld := false, pstate := .RUNNING,  chanSet := false },
    { spc := 2, wpc := 0, lockOwner := 1, lkHeld := false, pstate := .SLEEPING, chanSet := true },
    { spc := 3, wpc := 0, lockOwner := 0, lkHeld := false, pstate := .SLEEPING, chanSet := true },
    { spc := 3, wpc := 1, lockOwner := 2, lkHeld := false, pstate := .SLEEPING, chanSet := true },
    { spc := 3, wpc := 2, lockOwner := 2, lkHeld := false, pstate := .RUNNABLE, chanSet := true },
    { spc := 3, wpc := 3, lockOwner := 0, lkHeld := false, pstate := .RUNNABLE, chanSet := true } ]

/-- bestScan specialised to the MLFQ per-level candidate search. -/
def bestAt (i : Nat) (l : List Proc) (j0 : Nat) : Option (Nat × Nat) :=
  bestScan (fun p => p.state = .RUNNABLE ∧ p.priority_number = i)
    (fun p => p.time_added) l j0

/-- bestScan specialised to the FCFS candidate search. -/
def bestFcfs (l : List Proc) (j0 : Nat) : Option (Nat × Nat) :=
  bestScan (fun p => p.state = .RUNNABLE) (fun p => p.start_time) l j0

/-- Example: a running caller with one ZOMBIE child. -/
def exC1w : List Proc :=
  [ { defaultProc with state := .RUNNING, pid := 1 },
    { defaultProc with state := .ZOMBIE, pid := 7, parent := some 0, xstate := 3 } ]

/-- Example: a caller whose kill flag is set, with one ZOMBIE child. -/
def exC1c : List Proc :=
  [ { defaultProc with state := .RUNNING, pid := 1, killed := true },
    { defaultProc with state := .ZOMBIE, pid := 7, parent := some 0, xstate := 3 } ]

/-- Example: a caller with a ZOMBIE child carrying timing data. -/
def exC10 : List Proc :=
  [ { defaultProc with state := .RUNNING, pid := 1 },
    { defaultProc with state := .ZOMBIE, pid := 9, parent := some 0, xstate := 2,
                       ctime := 1, rtime := 2, etime := 6 } ]

/-- Example: slot 0 the init process sleeping in wait, slot 1 an exiting
    process whose parent is init, slot 2 a child of slot 1. -/
def exC2 : List Proc :=
  [ { defaultProc with state := .SLEEPING, pid := 1, chan := some 0 },
    { defaultProc with state := .RUNNING, pid := 2, parent := some 0 },
    { defaultProc with state := .RUNNABLE, pid := 3, parent := some 1 } ]

/-- Example: a fresh PBS slot with the default static priority. -/
def exC4fresh : Proc :=
  { defaultProc with Static_priority := 60, running_time := -1, sleeping_time := -1 }

/-- Example: a PBS slot with 80 ticks asleep and 20 ticks run. -/
def exC4ratio : Proc :=
  { defaultProc with Static_priority := 60, running_time := 20, sleeping_time := 80 }

/-- Example: one RUNNABLE slot with pid 4 and static priority 60. -/
def exC5 : List Proc :=
  [ { defaultProc with state := .RUNNABLE, pid := 4, Static_priority := 60 } ]

/-- Example: two RUNNABLE level-3 slots enqueued at ticks 10 and 20. -/
def exC6 : List Proc :=
  [ { defaultProc with state := .RUNNABLE, priority_number := 3, time_added := 10 },
    { defaultProc with state := .RUNNABLE, priority_number := 3, time_added := 20 } ]

/-- Example: three RUNNABLE slots enqueued at ticks 5, 3, 9. -/
def exC7a : List Proc :=
  [ { defaultProc with state := .RUNNABLE, pid := 1, start_time := 5 },
    { defaultProc with state := .RUNNABLE, pid := 2, start_time := 3 },
    { defaultProc with state := .RUNNABLE, pid := 3, start_time := 9 } ]

/-- Example: the same three enqueue ticks in a different slot order. -/
def exC7b : List Proc :=
  [ { defaultProc with state := .RUNNABLE, pid := 1, start_time := 9 },
    { defaultProc with state := .RUNNABLE, pid := 2, start_time := 5 },
    { defaultProc with state := .RUNNABLE, pid := 3, start_time := 3 } ]

/-- Example: a single ZOMBIE slot with pid 7. -/
def exC8z : List Proc := [ { defaultProc with state := .ZOMBIE, pid := 7 } ]

/-- Example: a single SLEEPING slot with pid 3. -/
def exC8s : List Proc :=
  [ { defaultProc with state := .SLEEPING, pid := 3, chan := some 5 } ]

/-- The final configuration of the sleep/wakeup race. -/
def swFinal : SWConfig :=
  { spc := 3, wpc := 3, lockOwner := 0, lkHeld := false, pstate := .RUNNABLE,
    chanSet := true }

/- ------------------------------------------------------------------ -/
/- Helper lemmas about table reads.                                   -/
/- ------------------------------------------------------------------ -/

theorem pget_out (t : List Proc) (k : Nat) (h : t.length ≤ k) :
    pget t k = defaultProc := by
  induction t generalizing k with
  | nil => simp [pget]
  | cons p rest ih =>
    cases k with
    | zero => simp at h
    | succ n => simpa [pget] using ih n (by simpa using h)

theorem pget_set_eq (t : List Proc) (j : Nat) (x : Proc) (h : j < t.length) :
    pget (t.set j x) j = x := by
  induction t generalizing j with
  | nil => simp at h
  | cons p rest ih =>
    cases j with
    | zero => simp [pget]
    | succ n => simpa [pget] using ih n (by simpa using h)

theorem pget_set_ne (t : List Proc) (j k : Nat) (x : Proc) (h : j ≠ k) :
    pget (t.set j x) k = pget t k := by
  induction t generalizing j k with
  | nil => simp [pget]
  | cons p rest ih =>
    cases j with
    | zero =>
      cases k with
      | zero => exact absurd rfl h
      | succ m => simp [pget]
    | succ n =>
      cases k with
      | zero => simp [pget]
      | succ m => simpa [pget] using ih n m (by omega)

/- ------------------------------------------------------------------ -/
/- The scan of wait()/waitx().                                        -/
/- ------------------------------------------------------------------ -/

theorem waitScan_found (caller : Nat) (l : List Proc) :
    ∀ (j0 : Nat) (hk : Bool) (d : Nat), d < l.length →
      (l.getD d defaultProc).parent = some caller →
      (l.getD d defaultProc).state = .ZOMBIE →
      (∀ e, e < d → ¬((l.getD e defaultProc).parent = some caller ∧
                      (l.getD e defaultProc).state = .ZOMBIE)) →
      waitScan caller l j0 hk = .found (j0 + d) (l.getD d defaultProc) := by
  induction l with
  | nil => intro j0 hk d hd; simp at hd
  | cons p rest ih =>
    intro j0 hk d hd hpar hz hfirst
    cases d with
    | zero =>
      simp only [List.getD_cons_zero] at hpar hz ⊢
      simp [waitScan, hpar, hz]
    | succ n =>
      have hnotz : ¬(p.parent = some caller ∧ p.state = .ZOMBIE) := by
        simpa using hfirst 0 (Nat.succ_pos n)
      have harith : j0 + (n + 1) = (j0 + 1) + n := by omega
      simp only [List.getD_cons_succ] at hpar hz ⊢
      rw [harith]
      by_cases hc : p.parent = some caller
      · have hpz : ¬ p.state = .ZOMBIE := fun hzz => hnotz ⟨hc, hzz⟩
        have hrec := ih (j0 + 1) true n (by simpa using hd) hpar hz
          (fun e he => by simpa using hfirst (e + 1) (by omega))
        simpa [waitScan, hc, hpz] using hrec
      · have hrec := ih (j0 + 1) hk n (by simpa using hd) hpar hz
          (fun e he => by simpa using hfirst (e + 1) (by omega))
        simpa [waitScan, hc] using hrec

theorem waitScan_done (caller : Nat) (l : List Proc) :
    ∀ (j0 : Nat) (hk : Bool),
      (∀ e, e < l.length → ¬((l.getD e defaultProc).parent = some caller ∧
                             (l.getD e defaultProc).state = .ZOMBIE)) →
      waitScan caller l j0 hk =
        .done (hk || l.any fun p => decide (p.parent = some caller)) := by
  induction l with
  | nil => intro j0 hk _; simp [waitScan]
  | cons p rest ih =>
    intro j0 hk hall
    have hnotz : ¬(p.parent = some caller ∧ p.state = .ZOMBIE) := by
      simpa using hall 0 (Nat.succ_pos _)
    have hrest : ∀ e, e < rest.length → ¬((rest.getD e defaultProc).parent = some caller ∧
        (rest.getD e defaultProc).state = .ZOMBIE) :=
      fun e he => by simpa using hall (e + 1) (by simp only [List.length_cons]; omega)
    by_cases hc : p.parent = some caller
    · have hpz : ¬ p.state = .ZOMBIE := fun hzz => hnotz ⟨hc, hzz⟩
      rw [show waitScan caller (p :: rest) j0 hk = waitScan caller rest (j0 + 1) true by
        simp [waitScan, hc, hpz]]
      rw [ih (j0 + 1) true hrest]
      have : (true || rest.any fun q => decide (q.parent = some caller)) =
          (hk || (p :: rest).any fun q => decide (q.parent = some caller)) := by
        simp [hc]
      rw [this]
    · rw [show waitScan caller (p :: rest) j0 hk = waitScan caller rest (j0 + 1) hk by
        simp [waitScan, hc]]
      rw [ih (j0 + 1) hk hrest]
      have : (hk || rest.any fun q => decide (q.parent = some caller)) =
          (hk || (p :: rest).any fun q => decide (q.parent = some caller)) := by
        simp [hc]
      rw [this]

/- ------------------------------------------------------------------ -/
/- C1: wait.                                                          -/
/- ------------------------------------------------------------------ -/

/-- C1 (counterexample): the claim says a caller whose kill flag is set gets
    -1 from wait immediately, but the scan reaps a ZOMBIE child first: with
    the killed caller in slot 0 and a zombie child in slot 1, wait returns
    the child pid 7, not the no-children signal. -/
theorem C1_counterexample :
    killedOf exC1c 0 = true ∧
    (pget exC1c 1).parent = some 0 ∧ (pget exC1c 1).state = .ZOMBIE ∧
    wait 0 false exC1c ≠ .nochildren exC1c ∧
    waitRet (wait 0 false exC1c) = some 7 := by decide

/-- C1 (amended): a wait round returns -1 immediately exactly when the scan
    finds no ZOMBIE child and (the caller has no child at all or its kill
    flag is set); when a ZOMBIE child exists, the first one in table order is
    reaped whenever the xstate copy does not fail, its slot is freed with
    trapframe, pagetable, sz, pid, parent, name, chan, killed and xstate
    cleared and the state set UNUSED, and its pid is returned. -/
theorem C1_wait_amended (t : List Proc) (caller : Nat) (cf : Bool) (j : Nat) :
    ((∀ e, e < t.length → ¬((pget t e).parent = some caller ∧
                            (pget t e).state = .ZOMBIE)) →
     ((t.any fun p => decide (p.parent = some caller)) = false ∨
       killedOf t caller = true) →
     wait caller cf t = .nochildren t) ∧
    (j < t.length → (pget t j).parent = some caller → (pget t j).state = .ZOMBIE →
     (∀ k, k < j → ¬((pget t k).parent = some caller ∧ (pget t k).state = .ZOMBIE)) →
     wait caller false t = .reap (pget t j).pid (t.set j (freeproc (pget t j))) ∧
     (freeproc (pget t j)).state = .UNUSED ∧
     (freeproc (pget t j)).trapframe = false ∧
     (freeproc (pget t j)).pagetable = false ∧
     (freeproc (pget t j)).sz = 0 ∧
     (freeproc (pget t j)).pid = 0 ∧
     (freeproc (pget t j)).parent = none ∧
     (freeproc (pget t j)).name = "" ∧
     (freeproc (pget t j)).chan = none ∧
     (freeproc (pget t j)).killed = false ∧
     (freeproc (pget t j)).xstate = 0) := by
  constructor
  · intro hnz hnk
    have hs := waitScan_done caller t 0 false hnz
    rcases hnk with h | h
    · simp [wait, hs, h]
    · simp [wait, hs, h]
  · intro hj hpar hz hfirst
    have hs := waitScan_found caller t 0 false j hj hpar hz hfirst
    rw [Nat.zero_add] at hs
    exact ⟨by simp [wait, hs, pget, List.getD], rfl, rfl, rfl, rfl, rfl, rfl, rfl, rfl, rfl, rfl⟩

/-- C1 (witness): the amended reap branch evaluated on a table with a zombie
    child of pid 7 in slot 1. -/
theorem C1_wait_amended_witness :
    wait 0 false exC1w = .reap (pget exC1w 1).pid
      (exC1w.set 1 (freeproc (pget exC1w 1))) ∧
    (freeproc (pget exC1w 1)).state = .UNUSED ∧
    (freeproc (pget exC1w 1)).trapframe = false ∧
    (freeproc (pget exC1w 1)).pagetable = false ∧
    (freeproc (pget exC1w 1)).sz = 0 ∧
    (freeproc (pget exC1w 1)).pid = 0 ∧
    (freeproc (pget exC1w 1)).parent = none ∧
    (freeproc (pget exC1w 1)).name = "" ∧
    (freeproc (pget exC1w 1)).chan = none ∧
    (freeproc (pget exC1w 1)).killed = false ∧
    (freeproc (pget exC1w 1)).xstate = 0 :=
  (C1_wait_amended exC1w 0 false 1).2 (by decide) (by decide) (by decide)
    (by decide)

/- ------------------------------------------------------------------ -/
/- C10: the copyout failure path of wait/waitx.                       -/
/- ------------------------------------------------------------------ -/

/-- C10: when the scan of wait or waitx finds a ZOMBIE child but the copy of
    its exit status to the caller-supplied nonzero address fails, the round
    returns -1 with the table untouched: the child slot keeps its ZOMBIE
    state, pid, exit status and timing fields, and waitx has already written
    the run and wait times.  A -1 return therefore does not imply that the
    caller has no children. -/
theorem C10_copyfail (t : List Proc) (caller j : Nat)
    (hj : j < t.length) (hpar : (pget t j).parent = some caller)
    (hz : (pget t j).state = .ZOMBIE)
    (hfirst : ∀ k, k < j → ¬((pget t k).parent = some caller ∧
                             (pget t k).state = .ZOMBIE)) :
    wait caller true t = .fail t ∧
    waitx caller true t = .failx (pget t j).rtime
      ((pget t j).etime - (pget t j).ctime - (pget t j).rtime) t ∧
    waitRet (wait caller true t) = some (-1) ∧
    (pget t j).state = .ZOMBIE := by
  have hs := waitScan_found caller t 0 false j hj hpar hz hfirst
  rw [Nat.zero_add] at hs
  exact ⟨by simp [wait, hs], by simp [waitx, hs, pget, List.getD], by simp [wait, hs, waitRet], hz⟩

/-- C10 (witness): the failing copy evaluated on a caller with one zombie
    child carrying rtime 2, ctime 1, etime 6. -/
theorem C10_copyfail_witness :
    wait 0 true exC10 = .fail exC10 ∧
    waitx 0 true exC10 = .failx (pget exC10 1).rtime
      ((pget exC10 1).etime - (pget exC10 1).ctime - (pget exC10 1).rtime) exC10 ∧
    waitRet (wait 0 true exC10) = some (-1) ∧
    (pget exC10 1).state = .ZOMBIE :=
  C10_copyfail exC10 0 1 (by decide) (by decide) (by decide) (by decide)

/- ------------------------------------------------------------------ -/
/- C8: kill.                                                          -/
/- ------------------------------------------------------------------ -/

theorem killFind_none_of (pid : Int) (l : List Proc) :
    ∀ j0 : Nat, (∀ e, e < l.length → (l.getD e defaultProc).pid ≠ pid) →
      killFind pid l j0 = none := by
  induction l with
  | nil => intro j0 _; rfl
  | cons p rest ih =>
    intro j0 hall
    have hp : ¬ p.pid = pid := by simpa using hall 0 (Nat.succ_pos _)
    simp only [killFind, if_neg hp]
    exact ih (j0 + 1) fun e he =>
      by simpa using hall (e + 1) (by simp only [List.length_cons]; omega)

theorem killFind_some (pid : Int) (l : List Proc) :
    ∀ (j0 j : Nat) (p : Proc), killFind pid l j0 = some (j, p) →
      ∃ d, j = j0 + d ∧ d < l.length ∧ l.getD d defaultProc = p ∧ p.pid = pid ∧
        ∀ e, e < d → (l.getD e defaultProc).pid ≠ pid := by
  induction l with
  | nil => intro j0 j p h; simp [killFind] at h
  | cons q rest ih =>
    intro j0 j p h
    by_cases hc : q.pid = pid
    · simp only [killFind, if_pos hc] at h
      injection h with h2
      injection h2 with ha hb
      subst ha; subst hb
      exact ⟨0, by omega, Nat.succ_pos _, rfl, hc, fun e he => by omega⟩
    · simp only [killFind, if_neg hc] at h
      obtain ⟨d, hd1, hd2, hd3, hd4, hd5⟩ := ih (j0 + 1) j p h
      refine ⟨d + 1, by omega, by simp only [List.length_cons]; omega, by simpa using hd3,
        hd4, fun e he => ?_⟩
      cases e with
      | zero => simpa using hc
      | succ n => simpa using hd5 n (by omega)

/-- C8 (counterexample): the claim says kill on an already-ZOMBIE pid
    returns the not-found signal without side effects, but kill matches the
    slot by pid regardless of state: on a ZOMBIE slot with pid 7 it returns
    0 and sets the kill flag. -/
theorem C8_counterexample :
    (pget exC8z 0).state = .ZOMBIE ∧ (pget exC8z 0).killed = false ∧
    (kill 7 exC8z).1 = 0 ∧ (kill 7 exC8z).1 ≠ -1 ∧
    (pget (kill 7 exC8z).2 0).killed = true ∧
    (pget (kill 7 exC8z).2 0).state = .ZOMBIE := by decide

/-- C8 (amended): kill(pid) acts on the first slot in table order whose pid
    field matches, regardless of its state: it sets the kill flag, flips a
    SLEEPING slot to RUNNABLE (leaving any other state, including ZOMBIE,
    unchanged) and returns 0.  Only when no slot carries the pid does kill
    return -1 and leave the table untouched. -/
theorem C8_kill_amended (pid : Int) (t : List Proc) :
    ((∀ e, e < t.length → (pget t e).pid ≠ pid) → kill pid t = (-1, t)) ∧
    (∀ j p, killFind pid t 0 = some (j, p) →
      kill pid t = (0, t.set j { p with killed := true, state := if p.state = .SLEEPING then .RUNNABLE else p.state }) ∧
      j < t.length ∧ p = pget t j ∧ p.pid = pid ∧
      (∀ e, e < j → (pget t e).pid ≠ pid) ∧
      pget (kill pid t).2 j = { p with killed := true, state := if p.state = .SLEEPING then .RUNNABLE else p.state } ∧
      (p.state = .SLEEPING → (pget (kill pid t).2 j).state = .RUNNABLE) ∧
      (p.state = .ZOMBIE → (pget (kill pid t).2 j).state = .ZOMBIE)) := by
  constructor
  · intro hall
    have h := killFind_none_of pid t 0 hall
    simp [kill, h]
  · intro j p h
    obtain ⟨d, hd1, hd2, hd3, hd4, hd5⟩ := killFind_some pid t 0 j p h
    have hj : j = d := by omega
    subst hj
    have hk : kill pid t = (0, t.set j { p with killed := true, state := if p.state = .SLEEPING then .RUNNABLE else p.state }) := by
      simp [kill, h]
    have hpg : pget (kill pid t).2 j = { p with killed := true, state := if p.state = .SLEEPING then .RUNNABLE else p.state } := by
      rw [hk]
      exact pget_set_eq t j _ hd2
    refine ⟨hk, hd2, by rw [← hd3]; rfl, hd4, hd5, hpg, ?_, ?_⟩
    · intro hsl; rw [hpg]; simp [hsl]
    · intro hzz; rw [hpg]
      have : ¬ p.state = .SLEEPING := by rw [hzz]; intro hcon; cases hcon
      simp [this, hzz]

/-- C8 (witness): the amended statement evaluated on a single SLEEPING slot
    with pid 3, which the kill flips to RUNNABLE with the flag set. -/
theorem C8_kill_amended_witness :
    kill 3 exC8s = (0, exC8s.set 0 { pget exC8s 0 with killed := true, state := if (pget exC8s 0).state = .SLEEPING then .RUNNABLE else (pget exC8s 0).state }) ∧
    (0 : Nat) < exC8s.length ∧ pget exC8s 0 = pget exC8s 0 ∧
    (pget exC8s 0).pid = 3 ∧
    (∀ e, e < 0 → (pget exC8s e).pid ≠ 3) ∧
    pget (kill 3 exC8s).2 0 = { pget exC8s 0 with killed := true, state := if (pget exC8s 0).state = .SLEEPING then .RUNNABLE else (pget exC8s 0).state } ∧
    ((pget exC8s 0).state = .SLEEPING → (pget (kill 3 exC8s).2 0).state = .RUNNABLE) ∧
    ((pget exC8s 0).state = .ZOMBIE → (pget (kill 3 exC8s).2 0).state = .ZOMBIE) :=
  (C8_kill_amended 3 exC8s).2 0 (pget exC8s 0) (by decide)

/- ------------------------------------------------------------------ -/
/- C5: set_priority_i.                                                -/
/- ------------------------------------------------------------------ -/

theorem spFind_none_of (pid : Int) (l : List Proc) :
    ∀ j0 : Nat,
      (∀ e, e < l.length → ¬(((l.getD e defaultProc).state = .RUNNABLE ∨
          (l.getD e defaultProc).state = .SLEEPING) ∧
          (l.getD e defaultProc).pid = pid)) →
      spFind pid l j0 = none := by
  induction l with
  | nil => intro j0 _; rfl
  | cons p rest ih =>
    intro j0 hall
    have hp : ¬((p.state = .RUNNABLE ∨ p.state = .SLEEPING) ∧ p.pid = pid) := by
      simpa using hall 0 (Nat.succ_pos _)
    simp only [spFind, if_neg hp]
    exact ih (j0 + 1) fun e he =>
      by simpa using hall (e + 1) (by simp only [List.length_cons]; omega)

theorem spFind_some (pid : Int) (l : List Proc) :
    ∀ (j0 j : Nat) (pp : Proc), spFind pid l j0 = some (j, pp) →
      ∃ d, j = j0 + d ∧ d < l.length ∧ l.getD d defaultProc = pp ∧
        ((pp.state = .RUNNABLE ∨ pp.state = .SLEEPING) ∧ pp.pid = pid) ∧
        ∀ e, e < d → ¬(((l.getD e defaultProc).state = .RUNNABLE ∨
            (l.getD e defaultProc).state = .SLEEPING) ∧
            (l.getD e defaultProc).pid = pid) := by
  induction l with
  | nil => intro j0 j pp h; simp [spFind] at h
  | cons q rest ih =>
    intro j0 j pp h
    by_cases hc : (q.state = .RUNNABLE ∨ q.state = .SLEEPING) ∧ q.pid = pid
    · simp only [spFind, if_pos hc] at h
      injection h with h2
      injection h2 with ha hb
      subst ha; subst hb
      exact ⟨0, by omega, Nat.succ_pos _, rfl, hc, fun e he => by omega⟩
    · simp only [spFind, if_neg hc] at h
      obtain ⟨d, hd1, hd2, hd3, hd4, hd5⟩ := ih (j0 + 1) j pp h
      refine ⟨d + 1, by omega, by simp only [List.length_cons]; omega,
        by simpa using hd3, hd4, fun e he => ?_⟩
      cases e with
      | zero => simpa using hc
      | succ n => simpa using hd5 n (by omega)

/-- C5 (counterexample): the claim says the caller yields exactly when the
    new static priority is numerically lower (more urgent) than the old one,
    but the source tests priority > old_priority: lowering 60 to 30 does not
    yield, while raising 60 to 80 does. -/
theorem C5_counterexample :
    set_priority_i 30 4 exC5 = .ok 60 false
      (exC5.set 0 { pget exC5 0 with Static_priority := 30, running_time := -1, sleeping_time := -1 }) ∧
    (30 : Int) < 60 ∧
    set_priority_i 80 4 exC5 = .ok 60 true
      (exC5.set 0 { pget exC5 0 with Static_priority := 80, running_time := -1, sleeping_time := -1 }) ∧
    (80 : Int) > 60 := by decide

/-- C5 (amended): under PBS, set_priority_i rejects priorities outside
    [0,100] with the distinct value 1; when no RUNNABLE or SLEEPING slot
    carries the pid it returns the distinct value 2; otherwise the first
    eligible slot in table order gets the new static priority with both
    interval markers reset to -1, the old static priority is returned, and
    the caller yields exactly when the new static priority is numerically
    greater (less urgent) than the old one. -/
theorem C5_setprio_amended (priority pid : Int) (t : List Proc) :
    ((priority < 0 ∨ priority > 100) → set_priority_i priority pid t = .invalid) ∧
    (¬(priority < 0 ∨ priority > 100) →
      (∀ e, e < t.length → ¬(((pget t e).state = .RUNNABLE ∨
          (pget t e).state = .SLEEPING) ∧ (pget t e).pid = pid)) →
      set_priority_i priority pid t = .notFound) ∧
    (∀ j pp, ¬(priority < 0 ∨ priority > 100) → spFind pid t 0 = some (j, pp) →
      set_priority_i priority pid t =
        .ok pp.Static_priority (decide (priority > pp.Static_priority))
          (t.set j { pp with Static_priority := priority, running_time := -1, sleeping_time := -1 }) ∧
      j < t.length ∧ pp = pget t j ∧
      ((pp.state = .RUNNABLE ∨ pp.state = .SLEEPING) ∧ pp.pid = pid) ∧
      (∀ e, e < j → ¬(((pget t e).state = .RUNNABLE ∨
          (pget t e).state = .SLEEPING) ∧ (pget t e).pid = pid)) ∧
      pget (t.set j { pp with Static_priority := priority, running_time := -1, sleeping_time := -1 }) j =
        { pp with Static_priority := priority, running_time := -1, sleeping_time := -1 } ∧
      (decide (priority > pp.Static_priority) = true ↔
        priority > pp.Static_priority)) := by
  refine ⟨?_, ?_, ?_⟩
  · intro h; simp [set_priority_i, h]
  · intro h hall
    have hf := spFind_none_of pid t 0 hall
    simp [set_priority_i, h, hf]
  · intro j pp h hf
    obtain ⟨d, hd1, hd2, hd3, hd4, hd5⟩ := spFind_some pid t 0 j pp hf
    have hj : j = d := by omega
    subst hj
    refine ⟨by simp [set_priority_i, h, hf], hd2, by rw [← hd3]; rfl, hd4, hd5,
      pget_set_eq t j _ hd2, by simp⟩

/-- C5 (witness): the amended eligible branch evaluated at priority 80 on a
    RUNNABLE slot with pid 4 and old static priority 60: the old value 60 is
    returned, the markers go fresh, and the caller yields since 80 > 60. -/
theorem C5_setprio_amended_witness :
    set_priority_i 80 4 exC5 =
      .ok (pget exC5 0).Static_priority
        (decide ((80 : Int) > (pget exC5 0).Static_priority))
        (exC5.set 0 { pget exC5 0 with Static_priority := 80, running_time := -1, sleeping_time := -1 }) ∧
    (0 : Nat) < exC5.length ∧ pget exC5 0 = pget exC5 0 ∧
    (((pget exC5 0).state = .RUNNABLE ∨ (pget exC5 0).state = .SLEEPING) ∧
      (pget exC5 0).pid = 4) ∧
    (∀ e, e < 0 → ¬(((pget exC5 e).state = .RUNNABLE ∨
        (pget exC5 e).state = .SLEEPING) ∧ (pget exC5 e).pid = 4)) ∧
    pget (exC5.set 0 { pget exC5 0 with Static_priority := 80, running_time := -1, sleeping_time := -1 }) 0 =
      { pget exC5 0 with Static_priority := 80, running_time := -1, sleeping_time := -1 } ∧
    (decide ((80 : Int) > (pget exC5 0).Static_priority) = true ↔
      (80 : Int) > (pget exC5 0).Static_priority) :=
  (C5_setprio_amended 80 4 exC5).2.2 0 (pget exC5 0) (by decide) (by decide)

/- ------------------------------------------------------------------ -/
/- C4: the PBS dynamic priority.                                      -/
/- ------------------------------------------------------------------ -/

theorem clamp_eq (v : Int) :
    (if v > 100 then (100 : Int) else if v < 0 then 0 else v) =
      clampSpec 0 100 v := by
  unfold clampSpec
  rw [max_def, min_def]
  split_ifs <;> omega

/-- C4: PSBPriority equals clamp(staticPriority - niceness + 5, 0, 100) with
    niceness 5 for a fresh slot (both markers -1) and otherwise the truncated
    quotient sleepingTime*10 over runningTime + sleepingTime, for every slot;
    in particular a fresh slot with static priority 60 gets 60, and static
    priority 60 with 80 ticks asleep and 20 run gets niceness 8 and dynamic
    priority 57. -/
theorem C4_psbpriority :
    (∀ p : Proc, PSBPriority p = dynamicPrioritySpec p) ∧
    PSBPriority exC4fresh = 60 ∧ PSBPriority exC4ratio = 57 := by
  refine ⟨?_, by decide, by decide⟩
  intro p
  by_cases hf : p.sleeping_time = -1 ∧ p.running_time = -1
  · simp only [PSBPriority, dynamicPrioritySpec, nicenessSpec, if_pos hf]
    exact clamp_eq _
  · simp only [PSBPriority, dynamicPrioritySpec, nicenessSpec, if_neg hf]
    rw [mul_comm p.sleeping_time 10, add_comm p.running_time p.sleeping_time]
    exact clamp_eq _

/- ------------------------------------------------------------------ -/
/- C9: the division inside PSBPriority.                               -/
/- ------------------------------------------------------------------ -/

/-- C9 (counterexample): a slot dispatched, put to sleep and woken inside
    the same tick 5 is reachable and holds running_time = sleeping_time = 0:
    it is not fresh, yet the niceness divisor is zero, so the guarded
    division of PSBPriority hits its error branch. -/
theorem C9_counterexample :
    pbsRun pbsInit [PbsEvent.dispatch 5, PbsEvent.sleepE 5, PbsEvent.wakeE 5] =
      some { st := .RUNNABLE, rt := 0, slt := 0, lastTick := 5 } ∧
    ¬((pbsToProc { st := .RUNNABLE, rt := 0, slt := 0, lastTick := 5 }).sleeping_time = -1 ∧
      (pbsToProc { st := .RUNNABLE, rt := 0, slt := 0, lastTick := 5 }).running_time = -1) ∧
    (pbsToProc { st := .RUNNABLE, rt := 0, slt := 0, lastTick := 5 }).running_time +
      (pbsToProc { st := .RUNNABLE, rt := 0, slt := 0, lastTick := 5 }).sleeping_time = 0 ∧
    PSBPriorityG (pbsToProc { st := .RUNNABLE, rt := 0, slt := 0, lastTick := 5 }) = none := by
  decide

/-- C9 (amended): the divisor of the PBS niceness is not always nonzero on
    reachable slot states: for every tick value, dispatching, sleeping and
    waking within that tick leaves a RUNNABLE slot with running_time and
    sleeping_time both 0, which is not fresh, and the guarded division of
    PSBPriority reaches its zero-divisor error branch there. -/
theorem C9_divzero_amended (tick : Nat) :
    pbsRun pbsInit [PbsEvent.dispatch tick, PbsEvent.sleepE tick, PbsEvent.wakeE tick] =
      some { st := .RUNNABLE, rt := 0, slt := 0, lastTick := tick } ∧
    ¬((pbsToProc { st := .RUNNABLE, rt := 0, slt := 0, lastTick := tick }).sleeping_time = -1 ∧
      (pbsToProc { st := .RUNNABLE, rt := 0, slt := 0, lastTick := tick }).running_time = -1) ∧
    (pbsToProc { st := .RUNNABLE, rt := 0, slt := 0, lastTick := tick }).running_time +
      (pbsToProc { st := .RUNNABLE, rt := 0, slt := 0, lastTick := tick }).sleeping_time = 0 ∧
    PSBPriorityG (pbsToProc { st := .RUNNABLE, rt := 0, slt := 0, lastTick := tick }) = none := by
  refine ⟨?_, by simp [pbsToProc], by simp [pbsToProc], rfl⟩
  simp [pbsRun, pbsStep, pbsInit, sub_self]

/- ------------------------------------------------------------------ -/
/- C3: the sleep/wakeup race.                                         -/
/- ------------------------------------------------------------------ -/

theorem swClosed_all :
    (swReachList.all fun c => (swNext c).all fun d => decide (d ∈ swReachList)) = true := by
  decide

theorem swInv (c : SWConfig) (h : SWReach c) : c ∈ swReachList := by
  induction h with
  | refl => decide
  | tail hc hmem ih =>
    have h1 := swClosed_all
    rw [List.all_eq_true] at h1
    have h2 := h1 _ ih
    rw [List.all_eq_true] at h2
    exact of_decide_eq_true (h2 _ hmem)

/-- C3: in the race between a sleeper that has already acquired its own slot
    lock inside sleep(chan, lk) and a wakeup(chan) issued from that moment
    on, every reachable configuration can keep stepping until both calls are
    done, and every completed configuration shows the slot RUNNABLE: the
    wakeup is never lost, because the waker must take the same per-slot lock
    to observe or flip the state. -/
theorem C3_sleep_wakeup (c : SWConfig) (h : SWReach c) :
    (swDone c → c.pstate = .RUNNABLE) ∧ (¬ swDone c → swNext c ≠ []) := by
  have hm := swInv c h
  have hall : ∀ x ∈ swReachList,
      (swDone x → x.pstate = .RUNNABLE) ∧ (¬ swDone x → swNext x ≠ []) := by decide
  exact hall c hm

/-- C3 (witness): the completed configuration of the race reached by the
    seven-step schedule, where the slot is indeed RUNNABLE. -/
theorem C3_sleep_wakeup_witness :
    (swDone swFinal → swFinal.pstate = .RUNNABLE) ∧
    (¬ swDone swFinal → swNext swFinal ≠ []) := by
  have h1 : SWReach swInit := SWReach.refl
  have h2 : SWReach { spc := 1, wpc := 0, lockOwner := 1, lkHeld := false, pstate := .RUNNING, chanSet := false } :=
    SWReach.tail h1 (by decide)
  have h3 : SWReach { spc := 2, wpc := 0, lockOwner := 1, lkHeld := false, pstate := .SLEEPING, chanSet := true } :=
    SWReach.tail h2 (by decide)
  have h4 : SWReach { spc := 3, wpc := 0, lockOwner := 0, lkHeld := false, pstate := .SLEEPING, chanSet := true } :=
    SWReach.tail h3 (by decide)
  have h5 : SWReach { spc := 3, wpc := 1, lockOwner := 2, lkHeld := false, pstate := .SLEEPING, chanSet := true } :=
    SWReach.tail h4 (by decide)
  have h6 : SWReach { spc := 3, wpc := 2, lockOwner := 2, lkHeld := false, pstate := .RUNNABLE, chanSet := true } :=
    SWReach.tail h5 (by decide)
  have h7 : SWReach swFinal := SWReach.tail h6 (by decide)
  exact C3_sleep_wakeup swFinal h7

/- ------------------------------------------------------------------ -/
/- C2: exit.                                                          -/
/- ------------------------------------------------------------------ -/

theorem length_wakeGo (pol : Policy) (skip : Nat) (chan : Option Nat) (now : Nat)
    (l : List Proc) : ∀ j0, (wakeGo pol skip chan now l j0).length = l.length := by
  induction l with
  | nil => intro j0; rfl
  | cons p rest ih => intro j0; simp [wakeGo, ih]

theorem length_wakeupT (pol : Policy) (skip : Nat) (chan : Option Nat) (now : Nat)
    (t : List Proc) : (wakeupT pol skip chan now t).length = t.length := by
  unfold wakeupT; exact length_wakeGo pol skip chan now t 0

theorem wakeSlot_parent (pol : Policy) (skip : Nat) (chan : Option Nat) (now : Nat)
    (j : Nat) (p : Proc) : (wakeSlot pol skip chan now j p).parent = p.parent := by
  unfold wakeSlot
  split
  · cases pol <;> rfl
  · rfl

theorem pget_wakeGo (pol : Policy) (skip : Nat) (chan : Option Nat) (now : Nat)
    (l : List Proc) : ∀ j0 k, k < l.length →
      pget (wakeGo pol skip chan now l j0) k =
        wakeSlot pol skip chan now (j0 + k) (pget l k) := by
  induction l with
  | nil => intro j0 k hk; simp at hk
  | cons p rest ih =>
    intro j0 k hk
    cases k with
    | zero => simp [wakeGo, pget]
    | succ n =>
      have harith : j0 + (n + 1) = (j0 + 1) + n := by omega
      rw [harith]
      simpa [wakeGo, pget] using ih (j0 + 1) n (by simpa using hk)

theorem parent_wakeupT (pol : Policy) (skip : Nat) (chan : Option Nat) (now : Nat)
    (t : List Proc) (k : Nat) :
    (pget (wakeupT pol skip chan now t) k).parent = (pget t k).parent := by
  by_cases hk : k < t.length
  · rw [wakeupT, pget_wakeGo pol skip chan now t 0 k hk, wakeSlot_parent]
  · have h1 : t.length ≤ k := Nat.le_of_not_lt hk
    rw [wakeupT, pget_out _ k (by rw [length_wakeGo]; exact h1), pget_out t k h1]

theorem length_repGo (pol : Policy) (pIdx initIdx : Nat) (now : Nat) :
    ∀ (js : List Nat) (t : List Proc),
      (repGo pol pIdx initIdx now js t).1.length = t.length := by
  intro js
  induction js with
  | nil => intro t; rfl
  | cons j js ih =>
    intro t
    by_cases hc : (pget t j).parent = some pIdx
    · simp only [repGo, if_pos hc]
      rw [ih, length_wakeupT, List.length_set]
    · simp only [repGo, if_neg hc]
      exact ih t

theorem repGo_parent (pol : Policy) (pIdx initIdx : Nat) (now : Nat)
    (hne : pIdx ≠ initIdx) :
    ∀ (js : List Nat) (t : List Proc) (k : Nat),
      (pget (repGo pol pIdx initIdx now js t).1 k).parent =
        if k ∈ js ∧ (pget t k).parent = some pIdx then some initIdx
        else (pget t k).parent := by
  intro js
  induction js with
  | nil => intro t k; simp [repGo]
  | cons j js ih =>
    intro t k
    by_cases hc : (pget t j).parent = some pIdx
    · have hjlen : j < t.length := by
        by_contra hcon
        rw [pget_out t j (Nat.le_of_not_lt hcon)] at hc
        simp [defaultProc] at hc
      simp only [repGo, if_pos hc]
      rw [ih]
      have hpt1 : ∀ m, (pget (wakeupT pol pIdx (some initIdx) now
          (t.set j { pget t j with parent := some initIdx })) m).parent =
          if m = j then some initIdx else (pget t m).parent := by
        intro m
        rw [parent_wakeupT]
        by_cases hmj : m = j
        · subst hmj; rw [pget_set_eq t m _ hjlen]; simp
        · rw [pget_set_ne t j m _ (fun hh => hmj hh.symm)]; simp [hmj]
      by_cases hkj : k = j
      · subst hkj
        rw [hpt1 k]
        have hngeq : (some initIdx : Option Nat) ≠ some pIdx := by
          simpa using Ne.symm hne
        simp [hc, hngeq]
      · rw [hpt1 k]
        simp only [if_neg hkj]
        simp [List.mem_cons, hkj]
    · simp only [repGo, if_neg hc]
      rw [ih]
      by_cases hkj : k = j
      · subst hkj; simp [hc]
      · simp [List.mem_cons, hkj]

theorem repGo_log (pol : Policy) (pIdx initIdx : Nat) (now : Nat) :
    ∀ (js : List Nat) (t : List Proc),
      (∃ j, j ∈ js ∧ (pget t j).parent = some pIdx) →
      some initIdx ∈ (repGo pol pIdx initIdx now js t).2 := by
  intro js
  induction js with
  | nil =>
    intro t h
    obtain ⟨j, hj, _⟩ := h
    simp at hj
  | cons j js ih =>
    intro t h
    by_cases hc : (pget t j).parent = some pIdx
    · simp [repGo, if_pos hc]
    · obtain ⟨j', hmem, hpar⟩ := h
      have hj' : j' ∈ js := by
        rcases List.mem_cons.mp hmem with rfl | hh
        · exact absurd hpar hc
        · exact hh
      simp only [repGo, if_neg hc]
      exact ih t ⟨j', hj', hpar⟩

/-- C2: for a process other than the bootstrap slot exiting with k children,
    the table update of exit under wait_lock reparents all k children to the
    bootstrap slot, issues a wakeup on the bootstrap slot at least once when
    k is positive, issues a wakeup on the former parent of the exiting slot,
    and leaves the exiting slot with xstate = status, etime = the current
    tick and state ZOMBIE; the source then jumps into the scheduler and
    never returns, so this update is the whole visible effect of exit. -/
theorem C2_exit (pol : Policy) (t : List Proc) (pIdx initIdx : Nat)
    (status : Int) (now : Nat)
    (h1 : pIdx < t.length) (h2 : pIdx ≠ initIdx)
    (h3 : (pget t pIdx).parent ≠ some pIdx) :
    (∀ k, k < t.length → (pget t k).parent = some pIdx →
       (pget (exitUpd pol pIdx initIdx status now t).1 k).parent = some initIdx) ∧
    ((∃ k, k < t.length ∧ (pget t k).parent = some pIdx) →
       some initIdx ∈ (exitUpd pol pIdx initIdx status now t).2) ∧
    (pget t pIdx).parent ∈ (exitUpd pol pIdx initIdx status now t).2 ∧
    (pget (exitUpd pol pIdx initIdx status now t).1 pIdx).xstate = status ∧
    (pget (exitUpd pol pIdx initIdx status now t).1 pIdx).state = .ZOMBIE ∧
    (pget (exitUpd pol pIdx initIdx status now t).1 pIdx).etime = now := by
  have hparr : ∀ k, (pget (reparentT pol pIdx initIdx now t).1 k).parent =
      if k ∈ List.range t.length ∧ (pget t k).parent = some pIdx then some initIdx
      else (pget t k).parent := by
    intro k
    unfold reparentT
    exact repGo_parent pol pIdx initIdx now h2 (List.range t.length) t k
  have hlen1 : (reparentT pol pIdx initIdx now t).1.length = t.length := by
    unfold reparentT
    exact length_repGo pol pIdx initIdx now (List.range t.length) t
  have hpchan : (pget (reparentT pol pIdx initIdx now t).1 pIdx).parent =
      (pget t pIdx).parent := by
    rw [hparr pIdx]
    simp [h3]
  have hsetlen : pIdx < (wakeupT pol pIdx
      ((pget (reparentT pol pIdx initIdx now t).1 pIdx).parent) now
      (reparentT pol pIdx initIdx now t).1).length := by
    rw [length_wakeupT, hlen1]; exact h1
  refine ⟨?_, ?_, ?_, ?_, ?_, ?_⟩
  · intro k hk hpar
    have hknp : k ≠ pIdx := fun heq => h3 (heq ▸ hpar)
    simp only [exitUpd]
    rw [pget_set_ne _ pIdx k _ (Ne.symm hknp), parent_wakeupT, hparr k]
    simp [List.mem_range.mpr hk, hpar]
  · rintro ⟨k, hk, hpar⟩
    simp only [exitUpd]
    apply List.mem_append_left
    unfold reparentT
    exact repGo_log pol pIdx initIdx now (List.range t.length) t
      ⟨k, List.mem_range.mpr hk, hpar⟩
  · simp only [exitUpd]
    rw [hpchan]
    exact List.mem_append_right _ (by simp)
  · simp only [exitUpd]
    rw [pget_set_eq _ pIdx _ hsetlen]
  · simp only [exitUpd]
    rw [pget_set_eq _ pIdx _ hsetlen]
  · simp only [exitUpd]
    rw [pget_set_eq _ pIdx _ hsetlen]

/-- C2 (witness): the exit update evaluated on a three-slot table where slot
    1 exits with status 5 at tick 9, its child in slot 2 moves to the
    bootstrap slot 0, and both wakeups are logged. -/
theorem C2_exit_witness :
    (∀ k, k < exC2.length → (pget exC2 k).parent = some 1 →
       (pget (exitUpd .DEFAULT 1 0 5 9 exC2).1 k).parent = some 0) ∧
    ((∃ k, k < exC2.length ∧ (pget exC2 k).parent = some 1) →
       some 0 ∈ (exitUpd .DEFAULT 1 0 5 9 exC2).2) ∧
    (pget exC2 1).parent ∈ (exitUpd .DEFAULT 1 0 5 9 exC2).2 ∧
    (pget (exitUpd .DEFAULT 1 0 5 9 exC2).1 1).xstate = 5 ∧
    (pget (exitUpd .DEFAULT 1 0 5 9 exC2).1 1).state = .ZOMBIE ∧
    (pget (exitUpd .DEFAULT 1 0 5 9 exC2).1 1).etime = 9 :=
  C2_exit .DEFAULT exC2 1 0 5 9 (by decide) (by decide) (by decide)

/- ------------------------------------------------------------------ -/
/- The first-minimum characterization of bestScan.                    -/
/- ------------------------------------------------------------------ -/

section BestScan

variable {sel : Proc → Prop} [DecidablePred sel] {key : Proc → Nat}

theorem bestScan_none_iff (l : List Proc) :
    ∀ j0, bestScan sel key l j0 = none ↔
      ∀ e, e < l.length → ¬ sel (l.getD e defaultProc) := by
  induction l with
  | nil => intro j0; simp [bestScan]
  | cons p rest ih =>
    intro j0
    by_cases hc : sel p
    · apply iff_of_false
      · unfold bestScan
        rw [if_pos hc]
        cases hr : bestScan sel key rest (j0 + 1) with
        | none => simp
        | some km =>
          obtain ⟨k, m⟩ := km
          by_cases hle : key p ≤ m <;> simp [hle]
      · intro hall
        exact hall 0 (Nat.succ_pos _) (by simpa using hc)
    · unfold bestScan
      rw [if_neg hc, ih (j0 + 1)]
      constructor
      · intro h e he
        cases e with
        | zero => simpa using hc
        | succ n => simpa using h n (by simpa using he)
      · intro h e he
        simpa using h (e + 1) (by simp only [List.length_cons]; omega)

theorem bestScan_some_spec (l : List Proc) :
    ∀ j0 k m, bestScan sel key l j0 = some (k, m) →
      ∃ d, d < l.length ∧ k = j0 + d ∧ sel (l.getD d defaultProc) ∧
        key (l.getD d defaultProc) = m ∧
        (∀ e, e < l.length → sel (l.getD e defaultProc) →
           m ≤ key (l.getD e defaultProc)) ∧
        (∀ e, e < d → sel (l.getD e defaultProc) →
           m < key (l.getD e defaultProc)) := by
  induction l with
  | nil => intro j0 k m h; simp [bestScan] at h
  | cons p rest ih =>
    intro j0 k m h
    unfold bestScan at h
    by_cases hc : sel p
    · rw [if_pos hc] at h
      cases hr : bestScan sel key rest (j0 + 1) with
      | none =>
        rw [hr] at h
        have h' : some (j0, key p) = some (k, m) := h
        injection h' with h2
        injection h2 with ha hb
        refine ⟨0, Nat.succ_pos _, by omega, by simpa using hc, by simpa using hb,
          ?_, fun e he => by omega⟩
        intro e he hse
        cases e with
        | zero => simp only [List.getD_cons_zero]; omega
        | succ n =>
          rw [bestScan_none_iff] at hr
          exact absurd (by simpa using hse) (hr n (by simpa using he))
      | some km =>
        obtain ⟨k', m'⟩ := km
        rw [hr] at h
        obtain ⟨d', hd1, hd2, hd3, hd4, hd5, hd6⟩ := ih (j0 + 1) k' m' hr
        have h' : (if key p ≤ m' then some (j0, key p) else some (k', m')) =
            some (k, m) := h
        by_cases hle : key p ≤ m'
        · rw [if_pos hle] at h'
          injection h' with h2
          injection h2 with ha hb
          refine ⟨0, Nat.succ_pos _, by omega, by simpa using hc, by simpa using hb,
            ?_, fun e he => by omega⟩
          intro e he hse
          cases e with
          | zero => simp only [List.getD_cons_zero]; omega
          | succ n =>
            have := hd5 n (by simpa using he) (by simpa using hse)
            simp only [List.getD_cons_succ]
            omega
        · rw [if_neg hle] at h'
          injection h' with h2
          injection h2 with ha hb
          subst ha
          subst hb
          refine ⟨d' + 1, by simp only [List.length_cons]; omega, by omega,
            by simpa using hd3, by simpa using hd4, ?_, ?_⟩
          · intro e he hse
            cases e with
            | zero => simp only [List.getD_cons_zero]; omega
            | succ n =>
              have := hd5 n (by simpa using he) (by simpa using hse)
              simp only [List.getD_cons_succ]
              omega
          · intro e he hse
            cases e with
            | zero => simp only [List.getD_cons_zero]; omega
            | succ n =>
              have := hd6 n (by omega) (by simpa using hse)
              simp only [List.getD_cons_succ]
              omega
    · rw [if_neg hc] at h
      obtain ⟨d', hd1, hd2, hd3, hd4, hd5, hd6⟩ := ih (j0 + 1) k m h
      refine ⟨d' + 1, by simp only [List.length_cons]; omega, by omega,
        by simpa using hd3, by simpa using hd4, ?_, ?_⟩
      · intro e he hse
        cases e with
        | zero => exact absurd (by simpa using hse) hc
        | succ n =>
          have := hd5 n (by simpa using he) (by simpa using hse)
          simp only [List.getD_cons_succ]
          omega
      · intro e he hse
        cases e with
        | zero => exact absurd (by simpa using hse) hc
        | succ n =>
          have := hd6 n (by omega) (by simpa using hse)
          simp only [List.getD_cons_succ]
          omega

end BestScan

/- ------------------------------------------------------------------ -/
/- C7: the FCFS selection loop.                                       -/
/- ------------------------------------------------------------------ -/

theorem bestFcfs_cons_pos (p : Proc) (rest : List Proc) (j0 : Nat)
    (hc : p.state = .RUNNABLE) :
    bestFcfs (p :: rest) j0 =
      match bestFcfs rest (j0 + 1) with
      | none => some (j0, p.start_time)
      | some (k, m) =>
        if p.start_time ≤ m then some (j0, p.start_time) else some (k, m) := by
  simp only [bestFcfs, bestScan]
  rw [if_pos hc]

theorem bestFcfs_cons_neg (p : Proc) (rest : List Proc) (j0 : Nat)
    (hc : ¬ p.state = .RUNNABLE) :
    bestFcfs (p :: rest) j0 = bestFcfs rest (j0 + 1) := by
  simp only [bestFcfs, bestScan]
  rw [if_neg hc]

theorem fcfsGo_general (l : List Proc) :
    ∀ (j0 m0 : Nat) (sel : Option Nat),
      fcfsGo l j0 (m0 : Int) sel =
        match bestFcfs l j0 with
        | none => sel
        | some (_, m) => if m < m0 then (bestFcfs l j0).map Prod.fst else sel := by
  induction l with
  | nil => intro j0 m0 sel; simp [fcfsGo, bestFcfs, bestScan]
  | cons p rest ih =>
    intro j0 m0 sel
    by_cases hc : p.state = .RUNNABLE
    · rw [bestFcfs_cons_pos p rest j0 hc]
      unfold fcfsGo
      rw [if_pos hc, if_neg (by omega : ¬ (m0 : Int) = -1)]
      by_cases hlt : p.start_time < m0
      · rw [if_pos (by exact_mod_cast hlt : (p.start_time : Int) < (m0 : Int))]
        rw [ih (j0 + 1) p.start_time (some j0)]
        cases hr : bestFcfs rest (j0 + 1) with
        | none => simp [hlt]
        | some km =>
          obtain ⟨k', m'⟩ := km
          by_cases hle : p.start_time ≤ m'
          · simp [hle, hlt, show ¬ m' < p.start_time by omega]
          · simp [hle, show m' < p.start_time by omega, show m' < m0 by omega]
      · rw [if_neg (by exact_mod_cast hlt : ¬ (p.start_time : Int) < (m0 : Int))]
        rw [ih (j0 + 1) m0 sel]
        cases hr : bestFcfs rest (j0 + 1) with
        | none => simp [show ¬ p.start_time < m0 from hlt]
        | some km =>
          obtain ⟨k', m'⟩ := km
          by_cases hle : p.start_time ≤ m'
          · simp [hle, show ¬ p.start_time < m0 from hlt, show ¬ m' < m0 by omega]
          · simp [hle]
    · rw [bestFcfs_cons_neg p rest j0 hc]
      unfold fcfsGo
      rw [if_neg hc]
      exact ih (j0 + 1) m0 sel

theorem fcfsGo_init (l : List Proc) :
    ∀ j0, fcfsGo l j0 (-1) none = (bestFcfs l j0).map Prod.fst := by
  induction l with
  | nil => intro j0; simp [fcfsGo, bestFcfs, bestScan]
  | cons p rest ih =>
    intro j0
    by_cases hc : p.state = .RUNNABLE
    · rw [bestFcfs_cons_pos p rest j0 hc]
      unfold fcfsGo
      rw [if_pos hc, if_pos rfl]
      rw [fcfsGo_general rest (j0 + 1) p.start_time (some j0)]
      cases hr : bestFcfs rest (j0 + 1) with
      | none => rfl
      | some km =>
        obtain ⟨k', m'⟩ := km
        by_cases hle : p.start_time ≤ m'
        · simp [hle, show ¬ m' < p.start_time by omega]
        · simp [hle, show m' < p.start_time by omega]
    · rw [bestFcfs_cons_neg p rest j0 hc]
      unfold fcfsGo
      rw [if_neg hc]
      exact ih (j0 + 1)

/-- C7: on every FCFS selection pass with at least one RUNNABLE slot, the
    dispatched slot is the RUNNABLE one with the smallest start_time, ties
    broken by the lowest slot index; the loop agrees with the spec
    formulation everywhere, and among three RUNNABLE slots enqueued at ticks
    5, 3, 9 the tick-3 slot wins in either slot arrangement. -/
theorem C7_fcfs :
    (∀ t : List Proc, FCFSselect t = fcfsSpec t) ∧
    (∀ (t : List Proc) (j : Nat), FCFSselect t = some j →
       j < t.length ∧ (pget t j).state = .RUNNABLE ∧
       (∀ k, k < t.length → (pget t k).state = .RUNNABLE →
          (pget t j).start_time ≤ (pget t k).start_time) ∧
       (∀ k, k < j → (pget t k).state = .RUNNABLE →
          (pget t j).start_time < (pget t k).start_time)) ∧
    (∀ t : List Proc, (∃ k, k < t.length ∧ (pget t k).state = .RUNNABLE) →
       (FCFSselect t).isSome) ∧
    FCFSselect exC7a = some 1 ∧ FCFSselect exC7b = some 2 := by
  have heq : ∀ t : List Proc, FCFSselect t = (bestFcfs t 0).map Prod.fst :=
    fun t => fcfsGo_init t 0
  refine ⟨fun t => heq t, ?_, ?_, by decide, by decide⟩
  · intro t j hj
    rw [heq t] at hj
    cases hb : bestFcfs t 0 with
    | none => rw [hb] at hj; simp at hj
    | some km =>
      obtain ⟨k, m⟩ := km
      rw [hb] at hj
      have hkj : k = j := by
        simpa using hj
      obtain ⟨d, hd1, hd2, hd3, hd4, hd5, hd6⟩ := bestScan_some_spec t 0 k m hb
      have hjd : j = d := by omega
      subst hjd
      refine ⟨hd1, hd3, ?_, ?_⟩
      · intro k2 hk2 hr2
        have := hd5 k2 hk2 hr2
        have hkey : (pget t j).start_time = m := hd4
        simp only [pget] at *
        omega
      · intro k2 hk2 hr2
        have := hd6 k2 hk2 hr2
        have hkey : (pget t j).start_time = m := hd4
        simp only [pget] at *
        omega
  · rintro t ⟨k, hk, hr⟩
    rw [heq t]
    cases hb : bestFcfs t 0 with
    | some km => simp
    | none =>
      exfalso
      unfold bestFcfs at hb
      rw [bestScan_none_iff] at hb
      exact hb k hk hr

/-- C7 (witness): the characterization evaluated on the 5/3/9 table, where
    slot 1 (tick 3) is selected and is minimal. -/
theorem C7_fcfs_witness :
    1 < exC7a.length ∧ (pget exC7a 1).state = .RUNNABLE ∧
    (∀ k, k < exC7a.length → (pget exC7a k).state = .RUNNABLE →
       (pget exC7a 1).start_time ≤ (pget exC7a k).start_time) ∧
    (∀ k, k < 1 → (pget exC7a k).state = .RUNNABLE →
       (pget exC7a 1).start_time < (pget exC7a k).start_time) :=
  C7_fcfs.2.1 exC7a 1 (by decide)

/- ------------------------------------------------------------------ -/
/- C6: the MLFQ selection.                                            -/
/- ------------------------------------------------------------------ -/

theorem bestAt_cons_pos (p : Proc) (rest : List Proc) (j0 i : Nat)
    (hc : p.state = .RUNNABLE ∧ p.priority_number = i) :
    bestAt i (p :: rest) j0 =
      match bestAt i rest (j0 + 1) with
      | none => some (j0, p.time_added)
      | some (k, m) =>
        if p.time_added ≤ m then some (j0, p.time_added) else some (k, m) := by
  simp only [bestAt, bestScan]
  rw [if_pos hc]

theorem bestAt_cons_neg (p : Proc) (rest : List Proc) (j0 i : Nat)
    (hc : ¬(p.state = .RUNNABLE ∧ p.priority_number = i)) :
    bestAt i (p :: rest) j0 = bestAt i rest (j0 + 1) := by
  simp only [bestAt, bestScan]
  rw [if_neg hc]

theorem levelGo_general (i : Nat) (l : List Proc) :
    ∀ (j0 m0 : Nat) (sel : Option Nat),
      (∀ e, e < l.length → (l.getD e defaultProc).state = .RUNNABLE →
        (l.getD e defaultProc).priority_number = i →
        (l.getD e defaultProc).time_added ≠ 0) →
      m0 ≠ 0 →
      levelGo i l j0 m0 sel =
        match bestAt i l j0 with
        | none => (m0, sel)
        | some (k, m) => if m < m0 then (m, some k) else (m0, sel) := by
  induction l with
  | nil => intro j0 m0 sel _ _; simp [levelGo, bestAt, bestScan]
  | cons p rest ih =>
    intro j0 m0 sel hz hm
    have hzrest : ∀ e, e < rest.length → (rest.getD e defaultProc).state = .RUNNABLE →
        (rest.getD e defaultProc).priority_number = i →
        (rest.getD e defaultProc).time_added ≠ 0 := fun e he h1 h2 => by
      simpa using hz (e + 1) (by simp only [List.length_cons]; omega)
        (by simpa using h1) (by simpa using h2)
    by_cases hc : p.state = .RUNNABLE ∧ p.priority_number = i
    · have hpz : p.time_added ≠ 0 := by
        simpa using hz 0 (Nat.succ_pos _) (by simpa using hc.1) (by simpa using hc.2)
      rw [bestAt_cons_pos p rest j0 i hc]
      unfold levelGo
      rw [if_pos hc, if_neg hm]
      by_cases hlt : p.time_added < m0
      · rw [if_pos hlt]
        rw [ih (j0 + 1) p.time_added (some j0) hzrest hpz]
        cases hr : bestAt i rest (j0 + 1) with
        | none => simp [hlt]
        | some km =>
          obtain ⟨k', m'⟩ := km
          by_cases hle : p.time_added ≤ m'
          · simp [hle, hlt, show ¬ m' < p.time_added by omega]
          · simp [hle, show m' < p.time_added by omega, show m' < m0 by omega]
      · rw [if_neg hlt]
        rw [ih (j0 + 1) m0 sel hzrest hm]
        cases hr : bestAt i rest (j0 + 1) with
        | none => simp [hlt]
        | some km =>
          obtain ⟨k', m'⟩ := km
          by_cases hle : p.time_added ≤ m'
          · simp [hle, hlt, show ¬ m' < m0 by omega]
          · simp [hle]
    · rw [bestAt_cons_neg p rest j0 i hc]
      unfold levelGo
      rw [if_neg hc]
      exact ih (j0 + 1) m0 sel hzrest hm

theorem levelGo_init (i : Nat) (l : List Proc) :
    ∀ j0, (∀ e, e < l.length → (l.getD e defaultProc).state = .RUNNABLE →
        (l.getD e defaultProc).priority_number = i →
        (l.getD e defaultProc).time_added ≠ 0) →
      levelGo i l j0 0 none =
        match bestAt i l j0 with
        | none => (0, none)
        | some (k, m) => (m, some k) := by
  induction l with
  | nil => intro j0 _; simp [levelGo, bestAt, bestScan]
  | cons p rest ih =>
    intro j0 hz
    have hzrest : ∀ e, e < rest.length → (rest.getD e defaultProc).state = .RUNNABLE →
        (rest.getD e defaultProc).priority_number = i →
        (rest.getD e defaultProc).time_added ≠ 0 := fun e he h1 h2 => by
      simpa using hz (e + 1) (by simp only [List.length_cons]; omega)
        (by simpa using h1) (by simpa using h2)
    by_cases hc : p.state = .RUNNABLE ∧ p.priority_number = i
    · have hpz : p.time_added ≠ 0 := by
        simpa using hz 0 (Nat.succ_pos _) (by simpa using hc.1) (by simpa using hc.2)
      rw [bestAt_cons_pos p rest j0 i hc]
      unfold levelGo
      rw [if_pos hc, if_pos rfl]
      rw [levelGo_general i rest (j0 + 1) p.time_added (some j0) hzrest hpz]
      cases hr : bestAt i rest (j0 + 1) with
      | none => rfl
      | some km =>
        obtain ⟨k', m'⟩ := km
        by_cases hle : p.time_added ≤ m'
        · simp [hle, show ¬ m' < p.time_added by omega]
        · simp [hle, show m' < p.time_added by omega]
    · rw [bestAt_cons_neg p rest j0 i hc]
      unfold levelGo
      rw [if_neg hc]
      exact ih (j0 + 1) hzrest

theorem levelResult_eq (i : Nat) (t : List Proc)
    (hz : ∀ e, e < t.length → (t.getD e defaultProc).state = .RUNNABLE →
      (t.getD e defaultProc).priority_number = i →
      (t.getD e defaultProc).time_added ≠ 0) :
    levelResult i t = (bestAt i t 0).map Prod.fst := by
  unfold levelResult
  rw [levelGo_init i t 0 hz]
  cases hb : bestAt i t 0 with
  | none => simp
  | some km =>
    obtain ⟨k, m⟩ := km
    obtain ⟨d, hd1, hd2, hd3, hd4, _, _⟩ := bestScan_some_spec t 0 k m hb
    have hm : m ≠ 0 := by
      have := hz d hd1 hd3.1 hd3.2
      omega
    simp [hm]

theorem rrGo_none (t : List Proc)
    (hnr : ∀ k, k < t.length → (pget t k).state ≠ .RUNNABLE) :
    ∀ (fuel cur : Nat), rrGo t t.length cur fuel = none := by
  intro fuel
  induction fuel with
  | zero => intro cur; rfl
  | succ n ih =>
    intro cur
    have hcur : ¬ (pget t cur).state = .RUNNABLE := by
      by_cases hc : cur < t.length
      · exact hnr cur hc
      · rw [pget_out t cur (Nat.le_of_not_lt hc)]
        intro hcon
        simp [defaultProc] at hcon
    unfold rrGo
    rw [if_neg hcur]
    exact ih ((cur + 1) % t.length)

theorem rrGo_some (t : List Proc) (n : Nat) :
    ∀ (fuel cur j c' : Nat), rrGo t n cur fuel = some (j, c') →
      (pget t j).state = .RUNNABLE ∧ c' = (j + 1) % n := by
  intro fuel
  induction fuel with
  | zero => intro cur j c' hh; simp [rrGo] at hh
  | succ m ih =>
    intro cur j c' hh
    unfold rrGo at hh
    by_cases hc : (pget t cur).state = .RUNNABLE
    · rw [if_pos hc] at hh
      injection hh with h2
      injection h2 with ha hb
      subst ha
      subst hb
      exact ⟨hc, rfl⟩
    · rw [if_neg hc] at hh
      exact ih ((cur + 1) % n) j c' hh

/-- C6 (counterexample): with both RUNNABLE slots at level 3 (levels 0-2
    empty) and the cursor at 1, the claim requires the round-robin fallback
    to dispatch slot 1 and advance the cursor, but the source scans level 3
    inside the earliest-enqueued loop as well: slot 0 (the earlier enqueue
    tick) is chosen and the cursor stays at 1. -/
theorem C6_counterexample :
    (∀ k, k < (UpgradePolicy 20 exC6).length →
       (pget (UpgradePolicy 20 exC6) k).state = .RUNNABLE →
       3 ≤ (pget (UpgradePolicy 20 exC6) k).priority_number) ∧
    mlfqChoose 1 (UpgradePolicy 20 exC6) = some (0, 1) ∧
    rrScan 1 (UpgradePolicy 20 exC6) = some (1, 0) ∧
    MLFQiter 1 20 exC6 = some (0, 1, mlfqDispatch 0 (UpgradePolicy 20 exC6)) := by
  decide

/-- C6 (amended): on a table whose RUNNABLE slots all carry a nonzero
    queue-enter tick and a level at most 3, the MLFQ selection picks the
    earliest-enqueued RUNNABLE slot of the lowest nonempty level among
    levels 0 through 3 (ties to the lower slot index) and leaves the
    round-robin cursor untouched; some slot is picked whenever any slot is
    RUNNABLE, so the round-robin tail over all RUNNABLE slots only runs when
    the level scan sees no candidate; the dispatched slot becomes RUNNING
    with its queue-enter tick cleared and its dispatch counter incremented. -/
theorem C6_mlfq_amended (t : List Proc) (rr : Nat)
    (h : ∀ k, k < t.length → (pget t k).state = .RUNNABLE →
       (pget t k).time_added ≠ 0 ∧ (pget t k).priority_number ≤ 3) :
    (∀ j rr2, mlfqChoose rr t = some (j, rr2) →
       rr2 = rr ∧ j < t.length ∧ (pget t j).state = .RUNNABLE ∧
       (∀ k, k < t.length → (pget t k).state = .RUNNABLE →
          (pget t j).priority_number ≤ (pget t k).priority_number) ∧
       (∀ k, k < t.length → (pget t k).state = .RUNNABLE →
          (pget t k).priority_number = (pget t j).priority_number →
          (pget t j).time_added ≤ (pget t k).time_added) ∧
       (∀ k, k < j → (pget t k).state = .RUNNABLE →
          (pget t k).priority_number = (pget t j).priority_number →
          (pget t j).time_added < (pget t k).time_added)) ∧
    ((∃ k, k < t.length ∧ (pget t k).state = .RUNNABLE) →
       (mlfqChoose rr t).isSome) ∧
    (∀ (j2 : Nat) (t2 : List Proc), j2 < t2.length →
       pget (mlfqDispatch j2 t2) j2 =
         { pget t2 j2 with state := .RUNNING, time_added := 0,
                           No_times := (pget t2 j2).No_times + 1 }) := by
  have hres : ∀ i, levelResult i t = (bestAt i t 0).map Prod.fst :=
    fun i => levelResult_eq i t (fun e he h1 h2 => (h e he h1).1)
  have hscan : levelScan t =
      match (bestAt 0 t 0).map Prod.fst with
      | some j => some j
      | none =>
        match (bestAt 1 t 0).map Prod.fst with
        | some j => some j
        | none =>
          match (bestAt 2 t 0).map Prod.fst with
          | some j => some j
          | none => (bestAt 3 t 0).map Prod.fst := by
    unfold levelScan
    rw [hres 0, hres 1, hres 2, hres 3]
  have hlev : ∀ i k m, bestAt i t 0 = some (k, m) →
      k < t.length ∧ (pget t k).state = .RUNNABLE ∧
      (pget t k).priority_number = i ∧ (pget t k).time_added = m ∧
      (∀ e, e < t.length → (pget t e).state = .RUNNABLE →
         (pget t e).priority_number = i → m ≤ (pget t e).time_added) ∧
      (∀ e, e < k → (pget t e).state = .RUNNABLE →
         (pget t e).priority_number = i → m < (pget t e).time_added) := by
    intro i k m hb
    obtain ⟨d, hd1, hd2, hd3, hd4, hd5, hd6⟩ := bestScan_some_spec t 0 k m hb
    have hdk : d = k := by omega
    subst hdk
    exact ⟨hd1, hd3.1, hd3.2, hd4, fun e he h1 h2 => hd5 e he ⟨h1, h2⟩,
      fun e he h1 h2 => hd6 e he ⟨h1, h2⟩⟩
  have hnone : ∀ i, bestAt i t 0 = none → ∀ e, e < t.length →
      (pget t e).state = .RUNNABLE → (pget t e).priority_number ≠ i := by
    intro i hb e he h1 h2
    unfold bestAt at hb
    rw [bestScan_none_iff] at hb
    exact hb e he ⟨h1, h2⟩
  have hcase : ∀ i k m, (∀ i2, i2 < i → bestAt i2 t 0 = none) →
      bestAt i t 0 = some (k, m) →
      k < t.length ∧ (pget t k).state = .RUNNABLE ∧
      (∀ k2, k2 < t.length → (pget t k2).state = .RUNNABLE →
         (pget t k).priority_number ≤ (pget t k2).priority_number) ∧
      (∀ k2, k2 < t.length → (pget t k2).state = .RUNNABLE →
         (pget t k2).priority_number = (pget t k).priority_number →
         (pget t k).time_added ≤ (pget t k2).time_added) ∧
      (∀ k2, k2 < k → (pget t k2).state = .RUNNABLE →
         (pget t k2).priority_number = (pget t k).priority_number →
         (pget t k).time_added < (pget t k2).time_added) := by
    intro i k m hearlier hb
    obtain ⟨hk1, hk2, hk3, hk4, hk5, hk6⟩ := hlev i k m hb
    refine ⟨hk1, hk2, ?_, ?_, ?_⟩
    · intro k2 h1 h2
      by_contra hcon
      push_neg at hcon
      have hlt : (pget t k2).priority_number < i := by omega
      exact hnone _ (hearlier _ hlt) k2 h1 h2 rfl
    · intro k2 h1 h2 heq
      have := hk5 k2 h1 h2 (by omega)
      omega
    · intro k2 h1 h2 heq
      have := hk6 k2 h1 h2 (by omega)
      omega
  refine ⟨?_, ?_, ?_⟩
  · intro j rr2 hch
    unfold mlfqChoose at hch
    cases hb0 : bestAt 0 t 0 with
    | some km =>
      obtain ⟨k, m⟩ := km
      have hlsv : levelScan t = some k := by rw [hscan, hb0]; rfl
      rw [hlsv] at hch
      have hch2 : some (k, rr) = some (j, rr2) := hch
      injection hch2 with h2
      injection h2 with ha hb'
      subst ha
      subst hb'
      obtain ⟨c1, c2, c3, c4, c5⟩ := hcase 0 k m (fun i2 hi2 => by omega) hb0
      exact ⟨rfl, c1, c2, c3, c4, c5⟩
    | none =>
      cases hb1 : bestAt 1 t 0 with
      | some km =>
        obtain ⟨k, m⟩ := km
        have hlsv : levelScan t = some k := by rw [hscan, hb0, hb1]; rfl
        rw [hlsv] at hch
        have hch2 : some (k, rr) = some (j, rr2) := hch
        injection hch2 with h2
        injection h2 with ha hb'
        subst ha
        subst hb'
        obtain ⟨c1, c2, c3, c4, c5⟩ := hcase 1 k m
          (fun i2 hi2 => by
            have h0 : i2 = 0 := by omega
            rw [h0]; exact hb0) hb1
        exact ⟨rfl, c1, c2, c3, c4, c5⟩
      | none =>
        cases hb2 : bestAt 2 t 0 with
        | some km =>
          obtain ⟨k, m⟩ := km
          have hlsv : levelScan t = some k := by rw [hscan, hb0, hb1, hb2]; rfl
          rw [hlsv] at hch
          have hch2 : some (k, rr) = some (j, rr2) := hch
          injection hch2 with h2
          injection h2 with ha hb'
          subst ha
          subst hb'
          obtain ⟨c1, c2, c3, c4, c5⟩ := hcase 2 k m
            (fun i2 hi2 => by interval_cases i2 <;> assumption) hb2
          exact ⟨rfl, c1, c2, c3, c4, c5⟩
        | none =>
          cases hb3 : bestAt 3 t 0 with
          | some km =>
            obtain ⟨k, m⟩ := km
            have hlsv : levelScan t = some k := by
              rw [hscan, hb0, hb1, hb2, hb3]; rfl
            rw [hlsv] at hch
            have hch2 : some (k, rr) = some (j, rr2) := hch
            injection hch2 with h2
            injection h2 with ha hb'
            subst ha
            subst hb'
            obtain ⟨c1, c2, c3, c4, c5⟩ := hcase 3 k m
              (fun i2 hi2 => by interval_cases i2 <;> assumption) hb3
            exact ⟨rfl, c1, c2, c3, c4, c5⟩
          | none =>
            exfalso
            have hnor : ∀ e, e < t.length → (pget t e).state ≠ .RUNNABLE := by
              intro e he hcon
              have hlv := (h e he hcon).2
              have g0 := hnone 0 hb0 e he hcon
              have g1 := hnone 1 hb1 e he hcon
              have g2 := hnone 2 hb2 e he hcon
              have g3 := hnone 3 hb3 e he hcon
              omega
            have hlsv : levelScan t = none := by
              rw [hscan, hb0, hb1, hb2, hb3]; rfl
            rw [hlsv] at hch
            have hch2 : rrScan rr t = some (j, rr2) := hch
            unfold rrScan at hch2
            rw [rrGo_none t hnor t.length rr] at hch2
            cases hch2
  · rintro ⟨k, hk, hr⟩
    unfold mlfqChoose
    cases hb0 : bestAt 0 t 0 with
    | some km =>
      obtain ⟨k0, m0⟩ := km
      have hlsv : levelScan t = some k0 := by rw [hscan, hb0]; rfl
      rw [hlsv]
      rfl
    | none =>
      cases hb1 : bestAt 1 t 0 with
      | some km =>
        obtain ⟨k1, m1⟩ := km
        have hlsv : levelScan t = some k1 := by rw [hscan, hb0, hb1]; rfl
        rw [hlsv]
        rfl
      | none =>
        cases hb2 : bestAt 2 t 0 with
        | some km =>
          obtain ⟨k2, m2⟩ := km
          have hlsv : levelScan t = some k2 := by rw [hscan, hb0, hb1, hb2]; rfl
          rw [hlsv]
          rfl
        | none =>
          cases hb3 : bestAt 3 t 0 with
          | some km =>
            obtain ⟨k3, m3⟩ := km
            have hlsv : levelScan t = some k3 := by
              rw [hscan, hb0, hb1, hb2, hb3]; rfl
            rw [hlsv]
            rfl
          | none =>
            exfalso
            have hlv := (h k hk hr).2
            have g0 := hnone 0 hb0 k hk hr
            have g1 := hnone 1 hb1 k hk hr
            have g2 := hnone 2 hb2 k hk hr
            have g3 := hnone 3 hb3 k hk hr
            omega
  · intro j2 t2 hj2
    unfold mlfqDispatch
    exact pget_set_eq t2 j2 _ hj2

/-- C6 (witness): the amended selection evaluated on the two level-3 slots
    enqueued at ticks 10 and 20 with the cursor at 1: slot 0 is chosen, the
    cursor is untouched, and slot 0 is minimal at its level. -/
theorem C6_mlfq_amended_witness :
    1 = 1 ∧ 0 < exC6.length ∧ (pget exC6 0).state = .RUNNABLE ∧
    (∀ k, k < exC6.length → (pget exC6 k).state = .RUNNABLE →
       (pget exC6 0).priority_number ≤ (pget exC6 k).priority_number) ∧
    (∀ k, k < exC6.length → (pget exC6 k).state = .RUNNABLE →
       (pget exC6 k).priority_number = (pget exC6 0).priority_number →
       (pget exC6 0).time_added ≤ (pget exC6 k).time_added) ∧
    (∀ k, k < 0 → (pget exC6 k).state = .RUNNABLE →
       (pget exC6 k).priority_number = (pget exC6 0).priority_number →
       (pget exC6 0).time_added < (pget exC6 k).time_added) :=
  (C6_mlfq_amended exC6 1 (by decide)).1 0 1 (by decide)

end OSched
